import Mathlib

/-!
Shallow embedding of the `polymer-invoice-batcher-example` relay pipeline
(`src/scripts/relayerV2.js` together with `src/config/chains.js`).

The JavaScript program is event-loop concurrent; pure fragments are embedded
as Lean functions, the environment is an explicit `String → Option String`
map, fallible calls return `Except`, and the orchestrator's interleaved
`handleEvent` invocations are modelled as a small-step machine whose atomic
steps are exactly the code segments between `await` suspension points.
-/

namespace InvoiceRelayer

/-- Process environment: `process.env` as a partial map from variable names
to string values. -/
def Env : Type := String → Option String

/-- JavaScript truthiness of an environment value: `undefined` and the empty
string are falsy, every other string is truthy. -/
def truthy : Option String → Bool
  | none => false
  | some s => !s.isEmpty

/-- One entry of the `CHAINS` configuration object of `src/config/chains.js`.
Fields that an entry does not set are `none`. -/
structure ChainCfg where
  key : String
  name : String
  chainId : Nat
  envPrefix : Option String
  invoiceBatcherAddress : Option String
  rpc : Option String
  rpcUrl : Option String
  proverAddress : Option String
deriving DecidableEq, Repr

/-- The `CHAINS` object of `src/config/chains.js`, with every
`process.env.X` read made explicit against the ambient environment. -/
def CHAINS (env : Env) : List ChainCfg :=
  [ { key := "optimism-sepolia", name := "Optimism Sepolia", chainId := 11155420,
      envPrefix := some "OPTIMISM_SEPOLIA",
      invoiceBatcherAddress := env "OPTIMISM_SEPOLIA_INVOICE_BATCHER_ADDRESS",
      rpc := env "OPTIMISM_SEPOLIA_RPC", rpcUrl := none,
      proverAddress := env "POLYMER_PROVER_OPTIMISM_TESTNET_CONTRACT_ADDRESS" },
    { key := "arbitrum-sepolia", name := "Arbitrum Sepolia", chainId := 421614,
      envPrefix := some "ARBITRUM_SEPOLIA",
      invoiceBatcherAddress := env "ARBITRUM_SEPOLIA_INVOICE_BATCHER_ADDRESS",
      rpc := env "ARBITRUM_SEPOLIA_RPC", rpcUrl := none,
      proverAddress := env "POLYMER_PROVER_ARBITRUM_TESTNET_CONTRACT_ADDRESS" },
    { key := "base-sepolia", name := "Base Sepolia", chainId := 84532,
      envPrefix := some "BASE_SEPOLIA",
      invoiceBatcherAddress := env "BASE_SEPOLIA_INVOICE_BATCHER_ADDRESS",
      rpc := env "BASE_SEPOLIA_RPC", rpcUrl := none,
      proverAddress := env "POLYMER_PROVER_BASE_TESTNET_CONTRACT_ADDRESS" },
    { key := "mode-sepolia", name := "Mode Sepolia", chainId := 919,
      envPrefix := none, invoiceBatcherAddress := env "MODE_SEPOLIA_INVOICE_BATCHER_ADDRESS",
      rpc := none, rpcUrl := env "MODE_SEPOLIA_RPC", proverAddress := none },
    { key := "bob-sepolia", name := "Bob Sepolia", chainId := 808813,
      envPrefix := none, invoiceBatcherAddress := env "BOB_SEPOLIA_INVOICE_BATCHER_ADDRESS",
      rpc := none, rpcUrl := env "BOB_SEPOLIA_RPC", proverAddress := none },
    { key := "ink-sepolia", name := "Ink Sepolia", chainId := 763373,
      envPrefix := none, invoiceBatcherAddress := env "INK_SEPOLIA_INVOICE_BATCHER_ADDRESS",
      rpc := none, rpcUrl := env "INK_SEPOLIA_RPC", proverAddress := none },
    { key := "unichain-sepolia", name := "UniChain Sepolia", chainId := 1301,
      envPrefix := none, invoiceBatcherAddress := env "UNICHAIN_SEPOLIA_INVOICE_BATCHER_ADDRESS",
      rpc := none, rpcUrl := env "UNICHAIN_SEPOLIA_RPC", proverAddress := none },
    { key := "mantle-sepolia", name := "Mantle Sepolia", chainId := 5003,
      envPrefix := none, invoiceBatcherAddress := env "MANTLE_SEPOLIA_INVOICE_BATCHER_ADDRESS",
      rpc := none, rpcUrl := env "MANTLE_SEPOLIA_RPC", proverAddress := none } ]

/-- JavaScript `s.split(',')`: split at every comma; the empty string splits
to `[""]`. -/
def splitCommaAux : List Char → List Char → List String
  | [], acc => [String.mk acc.reverse]
  | c :: rest, acc =>
    if c = ',' then String.mk acc.reverse :: splitCommaAux rest []
    else splitCommaAux rest (c :: acc)

/-- JavaScript `s.split(',')` on a whole string. -/
def splitComma (s : String) : List String := splitCommaAux s.toList []

/-- The expression `process.env.ACTIVATED_CHAINS?.split(',') || []` as in
`getEnabledChains`. -/
def activatedChainKeys (env : Env) : List String :=
  match env "ACTIVATED_CHAINS" with
  | none => []
  | some s => splitComma s

/-- The function `getEnabledChains` of `src/config/chains.js`: look every activated key up
in `CHAINS` and keep the entries that exist and have a truthy `rpc` and a
truthy `proverAddress`. -/
def getEnabledChains (env : Env) : List ChainCfg :=
  ((activatedChainKeys env).filterMap
      (fun k => (CHAINS env).find? (fun c => c.key == k))).filter
    (fun c => truthy c.rpc && truthy c.proverAddress)

/-- JavaScript template interpolation of a possibly-undefined `envPrefix`
(an undefined value prints as the string `undefined`). -/
def envPrefixStr (c : ChainCfg) : String := c.envPrefix.getD "undefined"

/-- In-memory state of one `ChainListener` instance: subscription status, the
number of registered `contract.on` handlers, and the `processedEvents` set
(modelled as a duplicate-free list of event-id strings). -/
structure ListenerSt where
  chainId : Nat
  isListening : Bool
  handlers : Nat
  processedEvents : List String
deriving DecidableEq, Repr

/-- The fresh listener state the `ChainListener` constructor produces for a
chain on success. -/
def listenerOf (c : ChainCfg) : ListenerSt :=
  { chainId := c.chainId, isListening := false, handlers := 0, processedEvents := [] }

/-- The `ChainListener` constructor: fails when the chain's RPC environment
variable or its invoice-batcher-address environment variable is falsy,
otherwise yields a fresh non-listening listener state. -/
def mkChainListener (env : Env) (chain : ChainCfg) : Except String ListenerSt :=
  if !truthy (env (envPrefixStr chain ++ "_RPC")) then
    .error ("No RPC found in environment for chain " ++ chain.name ++
      " (" ++ envPrefixStr chain ++ "_RPC)")
  else if !truthy (env (envPrefixStr chain ++ "_INVOICEBATCHER_ADDRESS")) then
    .error ("No invoice batcher address found in environment for chain " ++ chain.name ++
      " (" ++ envPrefixStr chain ++ "_INVOICEBATCHER_ADDRESS)")
  else
    .ok (listenerOf chain)

/-- The console warning `init()` prints for a skipped chain. -/
def initWarning (c : ChainCfg) : String :=
  "⚠️  Skipping " ++ c.name ++ " - No invoice batcher address configured (" ++
    envPrefixStr c ++ "_INVOICEBATCHER_ADDRESS)"

/-- Body of the `for` loop of `Relayer.init()`: chains whose
invoice-batcher-address variable is falsy are skipped with a console
warning, for the rest a `ChainListener` is constructed; a constructor
error aborts the loop. Yields the warnings printed and the listeners
built. -/
def initLoop (env : Env) : List ChainCfg → Except String (List String × List ListenerSt)
  | [] => .ok ([], [])
  | c :: rest =>
    if !truthy (env (envPrefixStr c ++ "_INVOICEBATCHER_ADDRESS")) then
      match initLoop env rest with
      | .error e => .error e
      | .ok (ws, ls) => .ok (initWarning c :: ws, ls)
    else
      match mkChainListener env c with
      | .error e => .error e
      | .ok l =>
        match initLoop env rest with
        | .error e => .error e
        | .ok (ws, ls) => .ok (ws, l :: ls)

/-- The method `Relayer.init()`: run the listener-construction loop over the enabled
chains and fail when no listener at all was constructed. -/
def relayerInit (env : Env) : Except String (List String × List ListenerSt) :=
  match initLoop env (getEnabledChains env) with
  | .error e => .error e
  | .ok (ws, ls) =>
    if ls.isEmpty then .error "No chains configured with valid invoice batcher addresses"
    else .ok (ws, ls)

/-- The exit code produced by `main()` for the initialization phase: a fatal
`init` error is caught and turned into `process.exit(1)`. -/
def mainExitCode (env : Env) : Nat :=
  match relayerInit env with
  | .error _ => 1
  | .ok _ => 0

/-- The chains `Relayer.init()` actually builds listeners for: the enabled
chains whose invoice-batcher-address environment variable is truthy. -/
def initListenerChains (env : Env) : List ChainCfg :=
  (getEnabledChains env).filter
    (fun c => truthy (env (envPrefixStr c ++ "_INVOICEBATCHER_ADDRESS")))

/-- The enabled chains `Relayer.init()` skips with a warning: those whose
invoice-batcher-address environment variable is falsy. -/
def initSkippedChains (env : Env) : List ChainCfg :=
  (getEnabledChains env).filter
    (fun c => !truthy (env (envPrefixStr c ++ "_INVOICEBATCHER_ADDRESS")))

/-- A concrete environment for evaluating the model: one chain is enabled
(its RPC and prover variables are set) but its invoice-batcher address is
missing, so `init()` builds zero listeners. -/
def envNoAddr : Env := fun k =>
  if k = "ACTIVATED_CHAINS" then some "optimism-sepolia"
  else if k = "OPTIMISM_SEPOLIA_RPC" then some "https://opt.example"
  else if k = "POLYMER_PROVER_OPTIMISM_TESTNET_CONTRACT_ADDRESS" then some "0x1"
  else none

/-- The method `ChainListener.start()` (lines 48-57): a no-op while already listening,
otherwise registers the `contract.on` handler and marks the listener live. -/
def ChainListener.start (s : ListenerSt) : ListenerSt :=
  if s.isListening then s
  else { s with handlers := s.handlers + 1, isListening := true }

/-- The method `ChainListener.stop()` (lines 92-97): a no-op while not listening,
otherwise `removeAllListeners` drops every handler and clears the flag. -/
def ChainListener.stop (s : ListenerSt) : ListenerSt :=
  if !s.isListening then s
  else { s with handlers := 0, isListening := false }

/-- One delivery of an `InvoiceBatch` log to a listener's `contract.on`
handler, with the `event.log` fields the handler reads. -/
structure LogDelivery where
  sender : String
  invoices : List String
  blockHash : String
  transactionHash : String
  index : Nat
  blockNumber : Nat
deriving DecidableEq, Repr

/-- The de-dup key the handler computes (line 63):
the string `blockHash-transactionHash-index`. -/
def logEventId (l : LogDelivery) : String :=
  l.blockHash ++ "-" ++ l.transactionHash ++ "-" ++ toString l.index

/-- Modelled from the spec: the event identity as §3 of the specification
defines it, `(sourceChainId, transactionHash, logIndex)` — stated for
comparison with the key the handler really uses (`logEventId`). -/
def specEventId (sourceChainId : Nat) (l : LogDelivery) : Nat × String × Nat :=
  (sourceChainId, l.transactionHash, l.index)

/-- A log entry of a transaction receipt, reduced to its topics. -/
structure RLog where
  address : String
  topics : List String
deriving DecidableEq, Repr

/-- A transaction receipt: its position in the block (`index`) and its logs. -/
structure TxReceipt where
  index : Nat
  logs : List RLog
deriving DecidableEq, Repr

/-- The `contract.on("InvoiceBatch", ...)` handler body (lines 60-86) for one
delivery, threading the `processedEvents` set. The receipt lookup and the
orchestrator callback are the two awaited fallible calls; their outcomes are
passed in. Returns the new set and whether the callback was invoked; every
thrown error is caught by the handler's own `try`/`catch`, so the function is
total and the subscription is untouched. -/
def handleLog (processed : List String) (l : LogDelivery)
    (receiptResult : Except String TxReceipt) (callbackResult : Except String Unit) :
    List String × Bool :=
  let eventId := logEventId l
  if processed.contains eventId then (processed, false)
  else
    match receiptResult with
    | .error _ => (processed, false)
    | .ok _ =>
      match callbackResult with
      | .error _ => (processed, true)
      | .ok _ => (eventId :: processed, true)

/-- The handler run on one delivery, threading the whole listener state;
shows that a delivery never touches the subscription itself. -/
def deliverLog (s : ListenerSt) (l : LogDelivery)
    (receiptResult : Except String TxReceipt) (callbackResult : Except String Unit) :
    ListenerSt × Bool :=
  let r := handleLog s.processedEvents l receiptResult callbackResult
  ({ s with processedEvents := r.1 }, r.2)

/-- A sequence of deliveries processed one after the other, counting how many
of them invoked the registered callback. -/
def runDeliveries (processed : List String) :
    List (LogDelivery × Except String TxReceipt × Except String Unit) → List String × Nat
  | [] => (processed, 0)
  | (l, rc, cb) :: rest =>
    let r := handleLog processed l rc cb
    let rr := runDeliveries r.1 rest
    (rr.1, (if r.2 then 1 else 0) + rr.2)

/-- Outcome of one `log_queryProof` poll as the loop of `getPolymerProof`
distinguishes them: a ready proof payload, a not-yet-ready answer, or a
thrown transport/service error. -/
inductive PollResult where
  | ready (proof : String)
  | notReady
  | serviceError (e : String)
deriving DecidableEq, Repr

/-- How proof acquisition can fail: the poll budget ran out, or a poll's
service error propagated. -/
inductive ProofErr where
  | timeout (msg : String)
  | service (e : String)
deriving DecidableEq, Repr

/-- The poll loop of `getPolymerProof` (lines 265-293): starting at a given
attempt count, while `attempts < 120`, query the job (the outcome of the
k-th poll is `query k`); a ready proof returns, a service error propagates,
otherwise increment and poll again; when the budget is exhausted, throw
`Timeout waiting for proof`. -/
def pollLoop (query : Nat → PollResult) (attempts : Nat) : Except ProofErr String :=
  if attempts < 120 then
    match query attempts with
    | .ready p => .ok p
    | .serviceError e => .error (.service e)
    | .notReady => pollLoop query (attempts + 1)
  else .error (.timeout "Timeout waiting for proof")
termination_by 120 - attempts
decreasing_by omega

/-- The event signature string of line 220. -/
def invoiceBatchEventSignature : String := "InvoiceBatch(address,bytes32[])"

/-- The scan `txReceipt.logs.findIndex(log => log.topics[0] === invoiceBatchTopic)`:
the index of the first log whose first topic is the given value, `none` when
there is no such log. -/
def findLocalLogIndex (topic : String) : List RLog → Option Nat
  | [] => none
  | log :: rest =>
    if log.topics.head? = some topic then some 0
    else (findLocalLogIndex topic rest).map (· + 1)

/-- The receipt-analysis prefix of `getPolymerProof` (lines 211-248), up to
the parameters of the `log_requestProof` call. `ethersId` stands for the
`ethers.id` keccak hash of the event signature (an external library
function). Produces the request parameters
`(sourceChainId, blockNumber, txReceipt.index, localLogIndex)` or the thrown
error. -/
def getProofParams (ethersId : String → String) (sourceChainId blockNumber : Nat)
    (receipt : Option TxReceipt) : Except String (Nat × Nat × Nat × Nat) :=
  match receipt with
  | none => .error "Transaction receipt not found"
  | some txReceipt =>
    let invoiceBatchTopic := ethersId invoiceBatchEventSignature
    match findLocalLogIndex invoiceBatchTopic txReceipt.logs with
    | none => .error "InvoiceBatch event not found in transaction logs"
    | some localLogIndex => .ok (sourceChainId, blockNumber, txReceipt.index, localLogIndex)

/-- One settled promise, as `Promise.allSettled` reports it. -/
inductive Settled (α : Type) where
  | fulfilled (value : α)
  | rejected (reason : String)
deriving DecidableEq, Repr

/-- Whether a settled promise was rejected. -/
def Settled.isRejected {α : Type} : Settled α → Bool
  | .rejected _ => true
  | .fulfilled _ => false

/-- Whether a fallible call succeeded. -/
def isOkB {α : Type} : Except String α → Bool
  | .ok _ => true
  | .error _ => false

/-- How `Promise.allSettled` reports one already-determined outcome. -/
def settleOf {α : Type} : Except String α → Settled α
  | .ok v => .fulfilled v
  | .error e => .rejected e

/-- The call `Promise.allSettled` over already-determined outcomes: never throws,
records each outcome positionally. -/
def allSettled {α : Type} (xs : List (Except String α)) : List (Settled α) :=
  xs.map settleOf

/-- The target set of the fan-out (lines 179-181): every enabled chain whose
`chainId` differs from the source chain's. -/
def targetChainsOf (enabled : List ChainCfg) (sourceChainId : Nat) : List ChainCfg :=
  enabled.filter (fun c => c.chainId != sourceChainId)

/-- The method `Relayer.updateChain` (lines 300-319). The provider, signer
and contract construction of lines 303-305 runs BEFORE the `try`;
`ctorResult` is its outcome (the ethers `Contract` constructor throws here
when the target's invoice-batcher address is undefined — enabled chains
need only `rpc` and `proverAddress`, so such targets exist), and because an
`async` function turns a synchronous throw into a rejected promise, that
error propagates to the caller with the library's raw message, unwrapped.
Only the `invoicesFromSource` transaction and its `wait()` — one awaited
fallible call whose outcome is `txResult` — sit inside the `try`, and only
their failure is re-thrown wrapped with the target chain's name. -/
def updateChain (targetChain : ChainCfg) (ctorResult : Except String Unit)
    (txResult : Except String TxReceipt) : Except String TxReceipt :=
  match ctorResult with
  | .error e => .error e
  | .ok _ =>
    match txResult with
    | .ok receipt => .ok receipt
    | .error e => .error ("Failed to update " ++ targetChain.name ++ ": " ++ e)

/-- The fan-out of `handleEvent` (lines 179-197): map `updateChain` over the
target set and settle every submission with `Promise.allSettled`. `ctorOf`
gives each target's pre-`try` contract-construction outcome and `txOf` its
underlying transaction outcome. -/
def fanOut (enabled : List ChainCfg) (sourceChainId : Nat)
    (ctorOf : ChainCfg → Except String Unit)
    (txOf : ChainCfg → Except String TxReceipt) : List (Settled TxReceipt) :=
  allSettled ((targetChainsOf enabled sourceChainId).map
    (fun t => updateChain t (ctorOf t) (txOf t)))

/-- The `eventData` record the listener hands to `Relayer.handleEvent`. -/
structure EventData where
  sourceChainId : Nat
  sender : String
  invoices : List String
  blockNumber : Nat
  transactionHash : String
  logIndex : Nat
deriving DecidableEq, Repr

/-- The in-flight key of `handleEvent` (line 158): the string
`sourceChainId-transactionHash`. -/
def mkEventId (ev : EventData) : String :=
  toString ev.sourceChainId ++ "-" ++ ev.transactionHash

/-- The chain ids the fan-out of an event targets. -/
def targetChainIds (enabled : List ChainCfg) (sourceChainId : Nat) : List Nat :=
  (targetChainsOf enabled sourceChainId).map (fun c => c.chainId)

/-- Where one `handleEvent` invocation stands between `await` suspension
points: at its synchronous entry (ticket check-and-insert), suspended on
`getPolymerProof`, suspended on the fan-out's `Promise.allSettled`, or
returned (`skipped` records the duplicate-in-flight early return). -/
inductive TaskPhase where
  | entry (ev : EventData)
  | awaitingProof (id : String) (ev : EventData)
  | awaitingDispatch (id : String) (targets : List Nat)
  | finished (id : String) (skipped : Bool)
deriving DecidableEq, Repr

/-- The external completion that resumes a suspended invocation. -/
inductive ExtEvent where
  | proofReady
  | proofFailed
  | dispatchSettled
deriving DecidableEq, Repr

/-- The outward-visible action of one atomic step: nothing, a proof request
to the attestation service, or the initiation of the fan-out dispatch. -/
inductive Action where
  | none
  | proofRequest (id : String)
  | dispatch (id : String) (targets : List Nat)
deriving DecidableEq, Repr

/-- The orchestrator's shared mutable state: the key set of the
`processingEvents` map, plus the phase of every `handleEvent` invocation. -/
structure RState where
  processing : List String
  tasks : List TaskPhase
deriving DecidableEq, Repr

/-- The in-flight ticket an invocation currently holds, if any. -/
def phId : TaskPhase → Option String
  | .awaitingProof id _ => some id
  | .awaitingDispatch id _ => some id
  | _ => none

/-- All tickets currently held by in-flight invocations. -/
def inFlightIds (tasks : List TaskPhase) : List String := tasks.filterMap phId

/-- One atomic step of one `handleEvent` invocation — exactly one code
segment between `await`s of lines 156-205:
entry performs the synchronous ticket check-and-insert (no `await` between
the two) and either returns at once (duplicate) or requests the proof;
resuming from `getPolymerProof` either initiates the fan-out (success) or
falls to the `finally` that deletes the ticket (failure); resuming from
`Promise.allSettled` runs the `finally` that deletes the ticket. -/
def stepPhase (enabled : List ChainCfg) (processing : List String) :
    TaskPhase → ExtEvent → List String × TaskPhase × Action
  | .entry ev, _ =>
    let id := mkEventId ev
    if processing.contains id then (processing, .finished id true, .none)
    else (id :: processing, .awaitingProof id ev, .proofRequest id)
  | .awaitingProof id ev, .proofReady =>
    let targets := targetChainIds enabled ev.sourceChainId
    (processing, .awaitingDispatch id targets, .dispatch id targets)
  | .awaitingProof id _, .proofFailed =>
    (processing.erase id, .finished id false, .none)
  | .awaitingProof id ev, .dispatchSettled =>
    (processing, .awaitingProof id ev, .none)
  | .awaitingDispatch id _, _ =>
    (processing.erase id, .finished id false, .none)
  | .finished id sk, _ => (processing, .finished id sk, .none)

/-- Step the invocation at position `i` of the task list. -/
def stepTasks (enabled : List ChainCfg) (processing : List String) (ext : ExtEvent) :
    List TaskPhase → Nat → List String × List TaskPhase × Action
  | [], _ => (processing, [], Action.none)
  | ph :: rest, 0 =>
    let r := stepPhase enabled processing ph ext
    (r.1, r.2.1 :: rest, r.2.2)
  | ph :: rest, i + 1 =>
    let r := stepTasks enabled processing ext rest i
    (r.1, ph :: r.2.1, r.2.2)

/-- One atomic scheduler step of the orchestrator. -/
def stepRelayer (enabled : List ChainCfg) (s : RState) (i : Nat) (ext : ExtEvent) :
    RState × Action :=
  ({ processing := (stepTasks enabled s.processing ext s.tasks i).1,
     tasks := (stepTasks enabled s.processing ext s.tasks i).2.1 },
   (stepTasks enabled s.processing ext s.tasks i).2.2)

/-- The mutual-exclusion invariant of the `processingEvents` map: its keys
are duplicate-free and are exactly the tickets of in-flight invocations,
of which no two share a ticket. -/
def Inv (s : RState) : Prop :=
  s.processing.Nodup ∧ (inFlightIds s.tasks).Nodup ∧
  (∀ id ∈ s.processing, id ∈ inFlightIds s.tasks) ∧
  (∀ id ∈ inFlightIds s.tasks, id ∈ s.processing)

instance (s : RState) : Decidable (Inv s) := by
  unfold Inv; infer_instance

/-- A concrete enabled-shaped chain configuration whose invoice-batcher
address is not configured, for evaluating the fan-out model. -/
def baseCfgW : ChainCfg :=
  { key := "base-sepolia", name := "Base Sepolia", chainId := 84532,
    envPrefix := some "BASE_SEPOLIA", invoiceBatcherAddress := none,
    rpc := some "https://base.example", rpcUrl := none, proverAddress := some "0x3" }

/-- A concrete event for evaluating the orchestrator model. -/
def evW : EventData :=
  { sourceChainId := 1, sender := "0xAA", invoices := ["h1"], blockNumber := 5,
    transactionHash := "t", logIndex := 0 }

/-! ## Theorems -/

/-- C9: `ChainListener.start()` is a no-op while already listening (no
second handler registered, state unchanged) and is idempotent;
`ChainListener.stop()` is a no-op while not listening, and otherwise removes
every registered handler and clears the listening flag. -/
theorem chainListener_start_stop_idempotent :
    (∀ s : ListenerSt, s.isListening = true → ChainListener.start s = s) ∧
    (∀ s : ListenerSt, ChainListener.start (ChainListener.start s) = ChainListener.start s) ∧
    (∀ s : ListenerSt, s.isListening = false → ChainListener.stop s = s) ∧
    (∀ s : ListenerSt, ChainListener.stop (ChainListener.stop s) = ChainListener.stop s) ∧
    (∀ s : ListenerSt, s.isListening = true →
      (ChainListener.stop s).handlers = 0 ∧ (ChainListener.stop s).isListening = false) := by
  refine ⟨fun s h => ?_, fun s => ?_, fun s h => ?_, fun s => ?_, fun s h => ?_⟩
  · simp [ChainListener.start, h]
  · by_cases h : s.isListening <;> simp [ChainListener.start, h]
  · simp [ChainListener.stop, h]
  · by_cases h : s.isListening <;> simp [ChainListener.stop, h]
  · simp [ChainListener.stop, h]

/-- Witness for C9 at a concrete listener state. -/
theorem chainListener_start_stop_idempotent_witness :
    ChainListener.start { chainId := 84532, isListening := true, handlers := 1, processedEvents := ["a"] } =
      { chainId := 84532, isListening := true, handlers := 1, processedEvents := ["a"] } ∧
    ChainListener.stop { chainId := 84532, isListening := false, handlers := 0, processedEvents := [] } =
      { chainId := 84532, isListening := false, handlers := 0, processedEvents := [] } ∧
    (ChainListener.stop { chainId := 84532, isListening := true, handlers := 1, processedEvents := [] }).handlers = 0 :=
  ⟨chainListener_start_stop_idempotent.1 _ rfl,
   chainListener_start_stop_idempotent.2.2.1 _ rfl,
   (chainListener_start_stop_idempotent.2.2.2.2 _ rfl).1⟩

/-- Character data of a string concatenation. -/
theorem string_data_append (s t : String) : (s ++ t).data = s.data ++ t.data := by
  cases s; cases t; rfl

/-- A string cannot contain a substring holding a character the string
itself lacks. -/
theorem no_sub_of_missing_char (msg sub : String) (c : Char)
    (hc : c ∈ sub.data) (hm : c ∉ msg.data) :
    ¬ ∃ a b, msg = a ++ sub ++ b := by
  rintro ⟨a, b, rfl⟩
  apply hm
  rw [string_data_append, string_data_append]
  exact List.mem_append.mpr (Or.inl (List.mem_append.mpr (Or.inr hc)))

/-- C8 counterexample: a target submission that fails in the pre-`try`
contract construction — as happens for an enabled chain without a
configured invoice-batcher address, where the ethers `Contract` constructor
throws — rejects with the library's raw message, which contains neither the
target chain's name nor any wrapping. -/
theorem updateChain_failure_reason_cex :
    updateChain baseCfgW (.error "invalid value for Contract target") (.ok { index := 0, logs := [] }) =
      .error "invalid value for Contract target" ∧
    ¬ ∃ a b, "invalid value for Contract target" = a ++ baseCfgW.name ++ b :=
  ⟨rfl, no_sub_of_missing_char _ _ 'B' (by decide) (by decide)⟩

/-- C8 (amended): a target submission that fails inside `updateChain`'s
`try` — in the `invoicesFromSource` transaction or its `wait()` — is
re-thrown with a reason that contains both the target chain's name and the
underlying transport error's message as substrings; a failure of the
pre-`try` provider/signer/contract construction (lines 303-305) propagates
to the caller with its own message, unwrapped. -/
theorem updateChain_failure_reason :
    ∀ (targetChain : ChainCfg) (e : String),
      (∃ msg, updateChain targetChain (.ok ()) (.error e) = .error msg ∧
        (∃ a b, msg = a ++ targetChain.name ++ b) ∧
        (∃ a b, msg = a ++ e ++ b)) ∧
      (∀ txResult : Except String TxReceipt,
        updateChain targetChain (.error e) txResult = .error e) := by
  intro targetChain e
  constructor
  · refine ⟨"Failed to update " ++ targetChain.name ++ ": " ++ e, rfl,
      ⟨"Failed to update ", ": " ++ e, ?_⟩,
      ⟨"Failed to update " ++ targetChain.name ++ ": ", "", ?_⟩⟩
    · simp [String.append_assoc]
    · simp
  · intro txResult
    rfl

/-- Equation lemma for the well-founded `pollLoop`. -/
theorem pollLoop_unfold (query : Nat → PollResult) (attempts : Nat) :
    pollLoop query attempts =
      if attempts < 120 then
        match query attempts with
        | .ready p => .ok p
        | .serviceError e => .error (.service e)
        | .notReady => pollLoop query (attempts + 1)
      else .error (.timeout "Timeout waiting for proof") := by
  rw [pollLoop]

/-- If every poll from `a` up to the budget answers not-ready, the loop
times out. -/
theorem pollLoop_timeout_aux (query : Nat → PollResult) :
    ∀ n a, 120 - a ≤ n → (∀ k, a ≤ k → k < 120 → query k = .notReady) →
      pollLoop query a = .error (.timeout "Timeout waiting for proof") := by
  intro n
  induction n with
  | zero =>
    intro a ha _
    have h120 : ¬ a < 120 := by omega
    rw [pollLoop_unfold, if_neg h120]
  | succ n ih =>
    intro a ha h
    rw [pollLoop_unfold]
    by_cases hlt : a < 120
    · rw [if_pos hlt, h a le_rfl hlt]
      exact ih (a + 1) (by omega) (fun k hk1 hk2 => h k (by omega) hk2)
    · rw [if_neg hlt]

/-- Skipping a not-ready span: the loop at `a` equals the loop at `k` when
every poll in `[a, k)` answers not-ready. -/
theorem pollLoop_skip (query : Nat → PollResult) :
    ∀ n a k, k - a ≤ n → a ≤ k → k < 120 →
      (∀ j, a ≤ j → j < k → query j = .notReady) →
      pollLoop query a = pollLoop query k := by
  intro n
  induction n with
  | zero =>
    intro a k hn hak _ _
    have : a = k := by omega
    rw [this]
  | succ n ih =>
    intro a k hn hak hk h
    rcases Nat.eq_or_lt_of_le hak with heq | hlt
    · rw [heq]
    · rw [pollLoop_unfold, if_pos (by omega), h a le_rfl hlt]
      exact ih (a + 1) k (by omega) (by omega) hk (fun j hj1 hj2 => h j (by omega) hj2)

/-- The loop consults at most the first 120 polls: two query oracles that
agree below the budget give the same outcome. -/
theorem pollLoop_congr_aux (query query' : Nat → PollResult) :
    ∀ n a, 120 - a ≤ n → (∀ k, a ≤ k → k < 120 → query k = query' k) →
      pollLoop query a = pollLoop query' a := by
  intro n
  induction n with
  | zero =>
    intro a ha _
    have h120 : ¬ a < 120 := by omega
    rw [pollLoop_unfold query a, pollLoop_unfold query' a, if_neg h120, if_neg h120]
  | succ n ih =>
    intro a ha h
    by_cases hlt : a < 120
    · rw [pollLoop_unfold query a, pollLoop_unfold query' a, if_pos hlt, if_pos hlt,
        h a le_rfl hlt]
      cases hq : query' a with
      | ready p => rfl
      | serviceError e => rfl
      | notReady => exact ih (a + 1) (by omega) (fun k hk1 hk2 => h k (by omega) hk2)
    · rw [pollLoop_unfold query a, pollLoop_unfold query' a, if_neg hlt, if_neg hlt]

/-- C3: the proof poll loop performs at most 120 polls (its outcome depends
only on the first 120 poll answers, and in particular it terminates — it is
a total function); if every poll answers not-ready it raises the
`Timeout waiting for proof` error; the first poll that answers ready makes
it return that proof; the first poll that raises a service error makes it
propagate that error immediately. -/
theorem getPolymerProof_poll_bounded :
    (∀ query query' : Nat → PollResult, (∀ k, k < 120 → query k = query' k) →
      pollLoop query 0 = pollLoop query' 0) ∧
    (∀ query : Nat → PollResult, (∀ k, k < 120 → query k = .notReady) →
      pollLoop query 0 = .error (.timeout "Timeout waiting for proof")) ∧
    (∀ (query : Nat → PollResult) (k : Nat) (p : String), k < 120 →
      (∀ j, j < k → query j = .notReady) → query k = .ready p →
      pollLoop query 0 = .ok p) ∧
    (∀ (query : Nat → PollResult) (k : Nat) (e : String), k < 120 →
      (∀ j, j < k → query j = .notReady) → query k = .serviceError e →
      pollLoop query 0 = .error (.service e)) := by
  refine ⟨fun query query' h => ?_, fun query h => ?_,
    fun query k p hk hpre hq => ?_, fun query k e hk hpre hq => ?_⟩
  · exact pollLoop_congr_aux query query' 120 0 (by omega) (fun j _ hj2 => h j hj2)
  · exact pollLoop_timeout_aux query 120 0 (by omega) (fun j _ hj2 => h j hj2)
  · rw [pollLoop_skip query 120 0 k (by omega) (Nat.zero_le k) hk (fun j _ hj2 => hpre j hj2),
      pollLoop_unfold, if_pos hk, hq]
  · rw [pollLoop_skip query 120 0 k (by omega) (Nat.zero_le k) hk (fun j _ hj2 => hpre j hj2),
      pollLoop_unfold, if_pos hk, hq]

/-- Witness for C3 at concrete poll oracles. -/
theorem getPolymerProof_poll_bounded_witness :
    pollLoop (fun _ => PollResult.notReady) 0 =
      .error (.timeout "Timeout waiting for proof") ∧
    pollLoop (fun k => if k = 2 then PollResult.ready "abc" else PollResult.notReady) 0 =
      .ok "abc" ∧
    pollLoop (fun k => if k = 1 then PollResult.serviceError "boom" else PollResult.notReady) 0 =
      .error (.service "boom") :=
  ⟨getPolymerProof_poll_bounded.2.1 _ (fun _ _ => rfl),
   getPolymerProof_poll_bounded.2.2.1 _ 2 "abc" (by omega)
     (fun j hj => by simp [Nat.ne_of_lt hj]) (by simp),
   getPolymerProof_poll_bounded.2.2.2 _ 1 "boom" (by omega)
     (fun j hj => by simp [Nat.ne_of_lt hj]) (by simp)⟩

/-- If no log's first topic matches, the receipt scan finds nothing. -/
theorem findLocalLogIndex_none (topic : String) :
    ∀ logs : List RLog, (∀ log ∈ logs, log.topics.head? ≠ some topic) →
      findLocalLogIndex topic logs = none := by
  intro logs
  induction logs with
  | nil => intro _; rfl
  | cons l rest ih =>
    intro h
    unfold findLocalLogIndex
    rw [if_neg (h l (List.mem_cons_self l rest)),
      ih (fun lg hm => h lg (List.mem_cons_of_mem l hm))]
    rfl

/-- The scan returns the index of a matching log all of whose predecessors
do not match. -/
theorem findLocalLogIndex_first (topic : String) :
    ∀ (logs : List RLog) (j : Nat) (log : RLog), logs[j]? = some log →
      log.topics.head? = some topic →
      (∀ k, k < j → ∀ lg, logs[k]? = some lg → lg.topics.head? ≠ some topic) →
      findLocalLogIndex topic logs = some j := by
  intro logs
  induction logs with
  | nil => intro j log hj; simp at hj
  | cons l rest ih =>
    intro j log hj hmatch hpre
    cases j with
    | zero =>
      simp only [List.getElem?_cons_zero, Option.some.injEq] at hj
      unfold findLocalLogIndex
      rw [if_pos (by rw [hj]; exact hmatch)]
    | succ j' =>
      have hl : l.topics.head? ≠ some topic :=
        hpre 0 (Nat.succ_pos j') l (by simp)
      unfold findLocalLogIndex
      rw [if_neg hl,
        ih j' log (by simpa using hj) hmatch
          (fun k hk lg hlg => hpre (k + 1) (by omega) lg (by simpa using hlg))]
      rfl

/-- The scan's result is the least matching index: no earlier log matches. -/
theorem findLocalLogIndex_le (topic : String) :
    ∀ (logs : List RLog) (j : Nat), findLocalLogIndex topic logs = some j →
      ∀ (k : Nat) (lg : RLog), logs[k]? = some lg → lg.topics.head? = some topic →
      j ≤ k := by
  intro logs
  induction logs with
  | nil => intro j h; simp [findLocalLogIndex] at h
  | cons l rest ih =>
    intro j h k lg hk hmatch
    unfold findLocalLogIndex at h
    by_cases hl : l.topics.head? = some topic
    · rw [if_pos hl] at h
      simp only [Option.some.injEq] at h
      omega
    · rw [if_neg hl] at h
      cases hf : findLocalLogIndex topic rest with
      | none => rw [hf] at h; simp at h
      | some j' =>
        rw [hf] at h
        simp only [Option.map_some', Option.some.injEq] at h
        cases k with
        | zero =>
          simp only [List.getElem?_cons_zero, Option.some.injEq] at hk
          rw [← hk] at hmatch
          exact absurd hmatch hl
        | succ k' =>
          have := ih j' hf k' lg (by simpa using hk) hmatch
          omega

/-- C5: the transaction-local log index is the index of the first receipt
log whose first topic equals the hash of
`InvoiceBatch(address,bytes32[])` (any result index is minimal among the
matching indices, so a later matching log is never selected); a missing
receipt and a receipt without such a log each raise the corresponding
error; and on success the proof request carries exactly
`(sourceChainId, blockNumber, txReceipt.index, localLogIndex)`. -/
theorem getPolymerProof_local_log_index :
    ∀ (ethersId : String → String) (sourceChainId blockNumber : Nat),
      (getProofParams ethersId sourceChainId blockNumber none =
        .error "Transaction receipt not found") ∧
      (∀ r : TxReceipt,
        (∀ log ∈ r.logs, log.topics.head? ≠ some (ethersId invoiceBatchEventSignature)) →
        getProofParams ethersId sourceChainId blockNumber (some r) =
          .error "InvoiceBatch event not found in transaction logs") ∧
      (∀ (r : TxReceipt) (j : Nat) (log : RLog), r.logs[j]? = some log →
        log.topics.head? = some (ethersId invoiceBatchEventSignature) →
        (∀ k, k < j → ∀ lg, r.logs[k]? = some lg →
          lg.topics.head? ≠ some (ethersId invoiceBatchEventSignature)) →
        getProofParams ethersId sourceChainId blockNumber (some r) =
          .ok (sourceChainId, blockNumber, r.index, j)) ∧
      (∀ (r : TxReceipt) (j : Nat),
        getProofParams ethersId sourceChainId blockNumber (some r) =
          .ok (sourceChainId, blockNumber, r.index, j) →
        ∀ (k : Nat) (lg : RLog), r.logs[k]? = some lg →
          lg.topics.head? = some (ethersId invoiceBatchEventSignature) → j ≤ k) := by
  intro ethersId sourceChainId blockNumber
  refine ⟨rfl, fun r h => ?_, fun r j log hj hm hpre => ?_, fun r j hok k lg hk hm => ?_⟩
  · simp only [getProofParams, findLocalLogIndex_none _ _ h]
  · simp only [getProofParams, findLocalLogIndex_first _ _ j log hj hm hpre]
  · simp only [getProofParams] at hok
    cases hf : findLocalLogIndex (ethersId invoiceBatchEventSignature) r.logs with
    | none => rw [hf] at hok; simp at hok
    | some j' =>
      rw [hf] at hok
      simp only [Except.ok.injEq, Prod.mk.injEq] at hok
      have hj' : j' = j := by tauto
      rw [hj'] at hf
      exact findLocalLogIndex_le _ _ j hf k lg hk hm

/-- Witness for C5: concrete receipt whose second log is the first match and
whose third log also matches but is not selected. -/
theorem getPolymerProof_local_log_index_witness :
    getProofParams (fun _ => "T") 84532 41 none = .error "Transaction receipt not found" ∧
    getProofParams (fun _ => "T") 84532 41 (some { index := 7, logs := [{ address := "a", topics := ["X"] }] }) =
      .error "InvoiceBatch event not found in transaction logs" ∧
    getProofParams (fun _ => "T") 84532 41 (some { index := 7, logs := [{ address := "a", topics := ["X"] }, { address := "b", topics := ["T"] }, { address := "c", topics := ["T"] }] }) =
      .ok (84532, 41, 7, 1) := by
  refine ⟨(getPolymerProof_local_log_index (fun _ => "T") 84532 41).1,
    (getPolymerProof_local_log_index (fun _ => "T") 84532 41).2.1 _ ?_,
    (getPolymerProof_local_log_index (fun _ => "T") 84532 41).2.2.1 _ 1
      { address := "b", topics := ["T"] } (by decide) (by decide) ?_⟩
  · intro log hm
    simp only [List.mem_singleton] at hm
    rw [hm]
    decide
  · intro k hk lg hlg
    interval_cases k
    simp only [List.getElem?_cons_zero, Option.some.injEq] at hlg
    rw [← hlg]
    decide

/-- A delivery whose de-dup key is already recorded is dropped without
invoking the callback, whatever the receipt and callback outcomes would be. -/
theorem handleLog_suppressed (processed : List String) (l : LogDelivery)
    (rc : Except String TxReceipt) (cb : Except String Unit)
    (h : processed.contains (logEventId l) = true) :
    handleLog processed l rc cb = (processed, false) := by
  have h' : logEventId l ∈ processed := by simpa using h
  simp [handleLog, h']

/-- Unfolding equation for `runDeliveries` on a cons cell. -/
theorem runDeliveries_cons (processed : List String) (l : LogDelivery)
    (rc : Except String TxReceipt) (cb : Except String Unit)
    (rest : List (LogDelivery × Except String TxReceipt × Except String Unit)) :
    runDeliveries processed ((l, rc, cb) :: rest) =
      ((runDeliveries (handleLog processed l rc cb).1 rest).1,
       (if (handleLog processed l rc cb).2 then 1 else 0) +
         (runDeliveries (handleLog processed l rc cb).1 rest).2) := rfl

/-- A run of deliveries all bearing an already-recorded key invokes the
callback zero times and leaves the set unchanged. -/
theorem runDeliveries_suppressed (id : String) :
    ∀ (ds : List (LogDelivery × Except String TxReceipt × Except String Unit))
      (processed : List String), processed.contains id = true →
      (∀ d ∈ ds, logEventId d.1 = id) →
      runDeliveries processed ds = (processed, 0) := by
  intro ds
  induction ds with
  | nil => intro processed _ _; rfl
  | cons d rest ih =>
    intro processed hmem hall
    obtain ⟨l, rc, cb⟩ := d
    have hid : logEventId l = id := hall (l, rc, cb) (List.mem_cons_self _ _)
    have h1 := handleLog_suppressed processed l rc cb (by rw [hid]; exact hmem)
    have h2 := ih processed hmem (fun d hd => hall d (List.mem_cons_of_mem _ hd))
    simp [runDeliveries_cons, h1, h2]

/-- C6 (amended): the listener's de-dup key is the string
`blockHash-transactionHash-logIndex`; a delivery whose key is already in the
set is discarded silently without invoking the callback; and any sequence of
deliveries sharing one key, in which every receipt lookup and every callback
succeeds, invokes the callback at most once. -/
theorem chainListener_dedup :
    (∀ (processed : List String) (l : LogDelivery) (rc : Except String TxReceipt)
      (cb : Except String Unit), processed.contains (logEventId l) = true →
      handleLog processed l rc cb = (processed, false)) ∧
    (∀ (ds : List (LogDelivery × Except String TxReceipt × Except String Unit)) (id : String),
      (∀ d ∈ ds, logEventId d.1 = id ∧ (∃ r, d.2.1 = .ok r) ∧ d.2.2 = .ok ()) →
      (runDeliveries [] ds).2 ≤ 1) := by
  refine ⟨handleLog_suppressed, fun ds id hall => ?_⟩
  cases ds with
  | nil => simp [runDeliveries]
  | cons d rest =>
    obtain ⟨l, rc, cb⟩ := d
    obtain ⟨hid, ⟨r, hrc⟩, hcb⟩ := hall (l, rc, cb) (List.mem_cons_self _ _)
    have h1 : handleLog [] l rc cb = ([logEventId l], true) := by
      simp only at hrc hcb
      rw [hrc, hcb]
      simp [handleLog]
    have h2 := runDeliveries_suppressed id rest [logEventId l]
      (by rw [hid]; simp) (fun d hd => (hall d (List.mem_cons_of_mem _ hd)).1)
    simp [runDeliveries_cons, h1, h2]

/-- Witness for C6 (amended) at concrete deliveries sharing one key. -/
theorem chainListener_dedup_witness :
    handleLog ["b-t-0"] { sender := "s", invoices := [], blockHash := "b", transactionHash := "t", index := 0, blockNumber := 3 } (.ok { index := 0, logs := [] }) (.ok ()) = (["b-t-0"], false) ∧
    (runDeliveries []
      [({ sender := "s", invoices := [], blockHash := "b", transactionHash := "t", index := 0, blockNumber := 3 }, .ok { index := 0, logs := [] }, .ok ()),
       ({ sender := "s", invoices := [], blockHash := "b", transactionHash := "t", index := 0, blockNumber := 3 }, .ok { index := 0, logs := [] }, .ok ())]).2 ≤ 1 := by
  refine ⟨chainListener_dedup.1 _ _ _ _ (by decide), chainListener_dedup.2 _ "b-t-0" ?_⟩
  intro d hd
  rcases List.mem_cons.mp hd with rfl | hd
  · exact ⟨by decide, ⟨{ index := 0, logs := [] }, rfl⟩, rfl⟩
  rcases List.mem_cons.mp hd with rfl | hd
  · exact ⟨by decide, ⟨{ index := 0, logs := [] }, rfl⟩, rfl⟩
  · simp at hd

/-- C6 counterexample: the claim's identity `(sourceChainId,
transactionHash, logIndex)` is not the key the handler uses — two
deliveries agreeing on that identity but differing in `blockHash` both
invoke the callback, so more than one callback invocation occurs. -/
theorem chainListener_dedup_spec_identity_cex :
    specEventId 84532 { sender := "s", invoices := [], blockHash := "b1", transactionHash := "t", index := 0, blockNumber := 3 } =
      specEventId 84532 { sender := "s", invoices := [], blockHash := "b2", transactionHash := "t", index := 0, blockNumber := 3 } ∧
    ¬ ((runDeliveries []
      [({ sender := "s", invoices := [], blockHash := "b1", transactionHash := "t", index := 0, blockNumber := 3 }, .ok { index := 0, logs := [] }, .ok ()),
       ({ sender := "s", invoices := [], blockHash := "b2", transactionHash := "t", index := 0, blockNumber := 3 }, .ok { index := 0, logs := [] }, .ok ())]).2 ≤ 1) := by
  constructor
  · rfl
  · decide

/-- C10: the de-dup key is recorded only after the callback returned without
throwing — a failed receipt lookup leaves the set unchanged without
invoking the callback, a throwing callback leaves the set unchanged though
the callback was invoked, the handler catches both errors (it returns
normally and the subscription state is untouched), and a redelivery of the
same log afterwards is processed as new. -/
theorem chainListener_records_after_callback :
    (∀ (s : ListenerSt) (l : LogDelivery) (e : String) (cb : Except String Unit),
      deliverLog s l (.error e) cb = (s, false)) ∧
    (∀ (s : ListenerSt) (l : LogDelivery) (r : TxReceipt) (e : String),
      s.processedEvents.contains (logEventId l) = false →
      deliverLog s l (.ok r) (.error e) = (s, true)) ∧
    (∀ (s : ListenerSt) (l : LogDelivery) (rc : Except String TxReceipt)
      (cb : Except String Unit),
      (deliverLog s l rc cb).1.isListening = s.isListening ∧
      (deliverLog s l rc cb).1.handlers = s.handlers) ∧
    (∀ (processed : List String) (l : LogDelivery) (r : TxReceipt),
      processed.contains (logEventId l) = false →
      handleLog processed l (.ok r) (.ok ()) = (logEventId l :: processed, true)) := by
  refine ⟨fun s l e cb => ?_, fun s l r e h => ?_, fun s l rc cb => ⟨rfl, rfl⟩,
    fun processed l r h => ?_⟩
  · by_cases h : logEventId l ∈ s.processedEvents <;>
      simp [deliverLog, handleLog, h]
  · have h' : logEventId l ∉ s.processedEvents := by simpa using h
    simp [deliverLog, handleLog, h']
  · have h' : logEventId l ∉ processed := by simpa using h
    simp [handleLog, h']

/-- Witness for C10 at a concrete delivery. -/
theorem chainListener_records_after_callback_witness :
    deliverLog { chainId := 84532, isListening := true, handlers := 1, processedEvents := [] } { sender := "s", invoices := [], blockHash := "b", transactionHash := "t", index := 0, blockNumber := 3 } (.ok { index := 0, logs := [] }) (.error "boom") =
      ({ chainId := 84532, isListening := true, handlers := 1, processedEvents := [] }, true) ∧
    handleLog [] { sender := "s", invoices := [], blockHash := "b", transactionHash := "t", index := 0, blockNumber := 3 } (.ok { index := 0, logs := [] }) (.ok ()) = (["b-t-0"], true) := by
  refine ⟨chainListener_records_after_callback.2.1 _ _ _ _ (by decide), ?_⟩
  rw [chainListener_records_after_callback.2.2.2 _ _ { index := 0, logs := [] } (by decide)]
  decide

/-- Counting a predicate and its negation exhausts a list. -/
theorem countP_add_countP_not {α : Type} (p : α → Bool) :
    ∀ l : List α, l.countP p + l.countP (fun a => !(p a)) = l.length := by
  intro l
  induction l with
  | nil => rfl
  | cons a rest ih =>
    cases h : p a <;> simp [List.countP_cons, h] <;> omega

/-- C4: the fan-out submits exactly one `updateChain` call per enabled chain
whose id differs from the source chain's; each position of the settled
result is the outcome of its own target's submission alone (its
construction and transaction outcomes); the aggregated result reports
exactly as many failures as targets whose submission failed in either
phase and as many successes as targets whose submission succeeded, and
together they cover every target — the fan-out itself is a total function,
so it completes without raising however many targets fail. -/
theorem fanOut_isolation :
    ∀ (enabled : List ChainCfg) (sourceChainId : Nat)
      (ctorOf : ChainCfg → Except String Unit)
      (txOf : ChainCfg → Except String TxReceipt),
      targetChainsOf enabled sourceChainId =
        enabled.filter (fun c => c.chainId != sourceChainId) ∧
      (fanOut enabled sourceChainId ctorOf txOf).length =
        (targetChainsOf enabled sourceChainId).length ∧
      (∀ i : Nat, (fanOut enabled sourceChainId ctorOf txOf)[i]? =
        ((targetChainsOf enabled sourceChainId)[i]?).map
          (fun t => settleOf (updateChain t (ctorOf t) (txOf t)))) ∧
      (fanOut enabled sourceChainId ctorOf txOf).countP (fun r => r.isRejected) =
        (targetChainsOf enabled sourceChainId).countP
          (fun t => !(isOkB (ctorOf t) && isOkB (txOf t))) ∧
      (fanOut enabled sourceChainId ctorOf txOf).countP (fun r => !(r.isRejected)) =
        (targetChainsOf enabled sourceChainId).countP
          (fun t => isOkB (ctorOf t) && isOkB (txOf t)) ∧
      (fanOut enabled sourceChainId ctorOf txOf).countP (fun r => r.isRejected) +
        (fanOut enabled sourceChainId ctorOf txOf).countP (fun r => !(r.isRejected)) =
        (targetChainsOf enabled sourceChainId).length := by
  intro enabled sourceChainId ctorOf txOf
  have hmap : fanOut enabled sourceChainId ctorOf txOf =
      (targetChainsOf enabled sourceChainId).map
        (fun t => settleOf (updateChain t (ctorOf t) (txOf t))) := by
    unfold fanOut allSettled
    rw [List.map_map]
    rfl
  refine ⟨rfl, ?_, ?_, ?_, ?_, ?_⟩
  · rw [hmap, List.length_map]
  · intro i
    rw [hmap, List.getElem?_map]
  · rw [hmap, List.countP_map]
    congr 1
    funext t
    cases hc : ctorOf t <;> cases h : txOf t <;>
      simp [updateChain, hc, h, isOkB, settleOf, Settled.isRejected, Function.comp]
  · rw [hmap, List.countP_map]
    congr 1
    funext t
    cases hc : ctorOf t <;> cases h : txOf t <;>
      simp [updateChain, hc, h, isOkB, settleOf, Settled.isRejected, Function.comp]
  · rw [countP_add_countP_not, hmap, List.length_map]

/-- Each `CHAINS` entry that has a truthy `rpc` field reads that field from
the environment variable `envPrefix ++ "_RPC"`. -/
theorem chains_rpc_key (env : Env) (c : ChainCfg) (hc : c ∈ CHAINS env)
    (htr : truthy c.rpc = true) : c.rpc = env (envPrefixStr c ++ "_RPC") := by
  simp only [CHAINS, List.mem_cons, List.not_mem_nil, or_false] at hc
  rcases hc with rfl | rfl | rfl | rfl | rfl | rfl | rfl | rfl <;>
    first
      | rfl
      | simp [truthy] at htr

/-- An enabled chain comes from the `CHAINS` table and has truthy `rpc` and
`proverAddress` fields. -/
theorem enabled_mem (env : Env) (c : ChainCfg) (hc : c ∈ getEnabledChains env) :
    c ∈ CHAINS env ∧ truthy c.rpc = true ∧ truthy c.proverAddress = true := by
  unfold getEnabledChains at hc
  rw [List.mem_filter] at hc
  obtain ⟨hmem, hpred⟩ := hc
  rw [List.mem_filterMap] at hmem
  obtain ⟨k, _, hfind⟩ := hmem
  rw [Bool.and_eq_true] at hpred
  exact ⟨List.mem_of_find?_eq_some hfind, hpred.1, hpred.2⟩

/-- For an enabled chain with a truthy invoice-batcher-address variable the
`ChainListener` constructor succeeds. -/
theorem mkChainListener_enabled (env : Env) (c : ChainCfg)
    (hc : c ∈ getEnabledChains env)
    (haddr : truthy (env (envPrefixStr c ++ "_INVOICEBATCHER_ADDRESS")) = true) :
    mkChainListener env c = .ok (listenerOf c) := by
  obtain ⟨hmem, hrpc, _⟩ := enabled_mem env c hc
  have hkey := chains_rpc_key env c hmem hrpc
  unfold mkChainListener
  rw [← hkey, hrpc, haddr]
  simp

/-- The `init()` loop over enabled chains: no constructor error occurs, the
skipped chains produce exactly their warnings, and the rest produce exactly
their listeners, in order. -/
theorem initLoop_enabled (env : Env) :
    ∀ l : List ChainCfg, (∀ c ∈ l, c ∈ getEnabledChains env) →
      initLoop env l = .ok
        ((l.filter (fun c => !truthy (env (envPrefixStr c ++ "_INVOICEBATCHER_ADDRESS")))).map initWarning,
         (l.filter (fun c => truthy (env (envPrefixStr c ++ "_INVOICEBATCHER_ADDRESS")))).map listenerOf) := by
  intro l
  induction l with
  | nil => intro _; rfl
  | cons c rest ih =>
    intro h
    have hrest := ih (fun d hd => h d (List.mem_cons_of_mem _ hd))
    by_cases haddr : truthy (env (envPrefixStr c ++ "_INVOICEBATCHER_ADDRESS")) = true
    · have hmk := mkChainListener_enabled env c (h c (List.mem_cons_self _ _)) haddr
      simp [initLoop, haddr, hmk, hrest, List.filter_cons]
    · have haddr' : truthy (env (envPrefixStr c ++ "_INVOICEBATCHER_ADDRESS")) = false :=
        Bool.eq_false_iff.mpr haddr
      simp [initLoop, haddr', hrest, List.filter_cons]

/-- C7: every enabled chain has a (truthy) configured RPC, `init()` builds
one listener per enabled chain whose invoice-batcher address is configured
and skips each of the others with a warning naming it, it throws if and
only if zero listeners were built, and a fatal `init` error makes the
process exit with a non-zero status. -/
theorem relayer_init_listeners :
    ∀ env : Env,
      (∀ c ∈ getEnabledChains env, truthy c.rpc = true) ∧
      relayerInit env =
        (if (initListenerChains env).isEmpty then
          Except.error "No chains configured with valid invoice batcher addresses"
        else Except.ok ((initSkippedChains env).map initWarning,
          (initListenerChains env).map listenerOf)) ∧
      ((∃ e, relayerInit env = .error e) ↔ initListenerChains env = []) ∧
      ((∃ e, relayerInit env = .error e) → mainExitCode env ≠ 0) := by
  intro env
  have hloop := initLoop_enabled env (getEnabledChains env) (fun c hc => hc)
  have h2 : relayerInit env =
      (if (initListenerChains env).isEmpty then
        Except.error "No chains configured with valid invoice batcher addresses"
      else Except.ok ((initSkippedChains env).map initWarning,
        (initListenerChains env).map listenerOf)) := by
    unfold relayerInit
    rw [hloop]
    unfold initListenerChains initSkippedChains
    cases hfil : (getEnabledChains env).filter
        (fun c => truthy (env (envPrefixStr c ++ "_INVOICEBATCHER_ADDRESS"))) with
    | nil => simp [hfil]
    | cons a as => simp [hfil]
  refine ⟨fun c hc => (enabled_mem env c hc).2.1, h2, ?_, ?_⟩
  · rw [h2]
    by_cases hfe : initListenerChains env = []
    · simp [hfe]
    · simp [hfe, List.isEmpty_iff]
  · intro ⟨e, he⟩
    unfold mainExitCode
    rw [he]
    simp

/-- Witness for C7: under `envNoAddr` one chain is enabled but no listener
can be built, so `init()` fails and the process exit code is non-zero. -/
theorem relayer_init_listeners_witness : mainExitCode envNoAddr ≠ 0 :=
  (relayer_init_listeners envNoAddr).2.2.2
    ((relayer_init_listeners envNoAddr).2.2.1.mpr (by decide))

/-- Unfolding of the in-flight invariant at an explicit state. -/
theorem Inv_def (p : List String) (t : List TaskPhase) :
    Inv { processing := p, tasks := t } ↔
      (p.Nodup ∧ (inFlightIds t).Nodup ∧ (∀ id ∈ p, id ∈ inFlightIds t) ∧
       (∀ id ∈ inFlightIds t, id ∈ p)) := Iff.rfl

/-- Replacing one task phase by one holding the same ticket (or none twice)
preserves the invariant. -/
theorem Inv_congr_phase (p : List String) (l₁ l₂ : List TaskPhase)
    (ph ph' : TaskPhase) (hid : phId ph = phId ph')
    (hInv : Inv { processing := p, tasks := l₁ ++ ph :: l₂ }) :
    Inv { processing := p, tasks := l₁ ++ ph' :: l₂ } := by
  have h : inFlightIds (l₁ ++ ph' :: l₂) = inFlightIds (l₁ ++ ph :: l₂) := by
    simp [inFlightIds, List.filterMap_append, List.filterMap_cons, hid]
  rw [Inv_def] at hInv ⊢
  rw [h]
  exact hInv

/-- Inserting a fresh ticket while the task at that slot starts holding it
preserves the invariant. -/
theorem Inv_insert_ticket (p : List String) (l₁ l₂ : List TaskPhase)
    (ph ph' : TaskPhase) (id : String)
    (h0 : phId ph = none) (h1 : phId ph' = some id) (hni : id ∉ p)
    (hInv : Inv { processing := p, tasks := l₁ ++ ph :: l₂ }) :
    Inv { processing := id :: p, tasks := l₁ ++ ph' :: l₂ } := by
  rw [Inv_def] at hInv ⊢
  obtain ⟨hp, hf, hsub1, hsub2⟩ := hInv
  have hold : inFlightIds (l₁ ++ ph :: l₂) = inFlightIds l₁ ++ inFlightIds l₂ := by
    simp [inFlightIds, List.filterMap_append, List.filterMap_cons, h0]
  have hnew : inFlightIds (l₁ ++ ph' :: l₂) = inFlightIds l₁ ++ id :: inFlightIds l₂ := by
    simp [inFlightIds, List.filterMap_append, List.filterMap_cons, h1]
  rw [hold] at hf hsub1 hsub2
  rw [hnew]
  have hidni : id ∉ inFlightIds l₁ ++ inFlightIds l₂ := fun hmem => hni (hsub2 id hmem)
  refine ⟨List.nodup_cons.mpr ⟨hni, hp⟩, ?_, ?_, ?_⟩
  · rw [List.nodup_middle]
    exact List.nodup_cons.mpr ⟨hidni, hf⟩
  · intro x hx
    rcases List.mem_cons.mp hx with rfl | hx
    · simp
    · have hm := hsub1 x hx
      simp only [List.mem_append, List.mem_cons] at hm ⊢
      tauto
  · intro x hx
    simp only [List.mem_append, List.mem_cons] at hx
    rcases hx with h | rfl | h
    · exact List.mem_cons_of_mem _ (hsub2 x (List.mem_append.mpr (Or.inl h)))
    · exact List.mem_cons_self _ _
    · exact List.mem_cons_of_mem _ (hsub2 x (List.mem_append.mpr (Or.inr h)))

/-- Erasing a ticket while the task holding it finishes preserves the
invariant. -/
theorem Inv_release_ticket (p : List String) (l₁ l₂ : List TaskPhase)
    (ph ph' : TaskPhase) (id : String)
    (h0 : phId ph = some id) (h1 : phId ph' = none)
    (hInv : Inv { processing := p, tasks := l₁ ++ ph :: l₂ }) :
    Inv { processing := p.erase id, tasks := l₁ ++ ph' :: l₂ } := by
  rw [Inv_def] at hInv ⊢
  obtain ⟨hp, hf, hsub1, hsub2⟩ := hInv
  have hold : inFlightIds (l₁ ++ ph :: l₂) = inFlightIds l₁ ++ id :: inFlightIds l₂ := by
    simp [inFlightIds, List.filterMap_append, List.filterMap_cons, h0]
  have hnew : inFlightIds (l₁ ++ ph' :: l₂) = inFlightIds l₁ ++ inFlightIds l₂ := by
    simp [inFlightIds, List.filterMap_append, List.filterMap_cons, h1]
  rw [hold] at hf hsub1 hsub2
  rw [hnew]
  have hmid := List.nodup_middle.mp hf
  have hidni : id ∉ inFlightIds l₁ ++ inFlightIds l₂ := (List.nodup_cons.mp hmid).1
  have hFF : (inFlightIds l₁ ++ inFlightIds l₂).Nodup := (List.nodup_cons.mp hmid).2
  refine ⟨hp.erase id, hFF, ?_, ?_⟩
  · intro x hx
    obtain ⟨hne, hxp⟩ := (hp.mem_erase_iff).mp hx
    have hm := hsub1 x hxp
    simp only [List.mem_append, List.mem_cons] at hm ⊢
    rcases hm with h | rfl | h
    · exact Or.inl h
    · exact absurd rfl hne
    · exact Or.inr h
  · intro x hx
    have hxp : x ∈ p := by
      refine hsub2 x ?_
      simp only [List.mem_append, List.mem_cons] at hx ⊢
      tauto
    have hne : x ≠ id := fun he => hidni (he ▸ hx)
    exact (hp.mem_erase_iff).mpr ⟨hne, hxp⟩

/-- One atomic step of the task in the middle of a decomposed task list
preserves the in-flight invariant. -/
theorem stepPhase_preserves (enabled : List ChainCfg) (p : List String)
    (l₁ l₂ : List TaskPhase) (ph : TaskPhase) (ext : ExtEvent)
    (hInv : Inv { processing := p, tasks := l₁ ++ ph :: l₂ }) :
    Inv { processing := (stepPhase enabled p ph ext).1,
          tasks := l₁ ++ (stepPhase enabled p ph ext).2.1 :: l₂ } := by
  cases ph with
  | entry ev =>
    have key : stepPhase enabled p (.entry ev) ext =
        (if p.contains (mkEventId ev) then
          (p, .finished (mkEventId ev) true, Action.none)
        else (mkEventId ev :: p, .awaitingProof (mkEventId ev) ev,
          .proofRequest (mkEventId ev))) := by
      cases ext <;> rfl
    rw [key]
    by_cases hc : p.contains (mkEventId ev) = true
    · rw [if_pos hc]
      exact Inv_congr_phase p l₁ l₂ (.entry ev)
        (.finished (mkEventId ev) true) rfl hInv
    · rw [if_neg hc]
      have hni : mkEventId ev ∉ p := by simpa using hc
      exact Inv_insert_ticket p l₁ l₂ (.entry ev)
        (.awaitingProof (mkEventId ev) ev) (mkEventId ev) rfl rfl hni hInv
  | awaitingProof id ev =>
    cases ext with
    | proofReady =>
      exact Inv_congr_phase p l₁ l₂ (.awaitingProof id ev)
        (.awaitingDispatch id (targetChainIds enabled ev.sourceChainId)) rfl hInv
    | proofFailed =>
      exact Inv_release_ticket p l₁ l₂ (.awaitingProof id ev)
        (.finished id false) id rfl rfl hInv
    | dispatchSettled => exact hInv
  | awaitingDispatch id t =>
    cases ext <;>
      exact Inv_release_ticket p l₁ l₂ (.awaitingDispatch id t)
        (.finished id false) id rfl rfl hInv
  | finished id sk => cases ext <;> exact hInv

/-- Stepping the slot after a prefix of length `i` rewrites exactly that
slot. -/
theorem stepTasks_decomp (enabled : List ChainCfg) (ext : ExtEvent) :
    ∀ (l₁ : List TaskPhase) (p : List String) (ph : TaskPhase) (l₂ : List TaskPhase),
      stepTasks enabled p ext (l₁ ++ ph :: l₂) l₁.length =
        ((stepPhase enabled p ph ext).1,
         l₁ ++ (stepPhase enabled p ph ext).2.1 :: l₂,
         (stepPhase enabled p ph ext).2.2) := by
  intro l₁
  induction l₁ with
  | nil => intro p ph l₂; rfl
  | cons a l₁ ih =>
    intro p ph l₂
    simp only [List.cons_append, List.length_cons]
    rw [show stepTasks enabled p ext (a :: (l₁ ++ ph :: l₂)) (l₁.length + 1) =
        ((stepTasks enabled p ext (l₁ ++ ph :: l₂) l₁.length).1,
         a :: (stepTasks enabled p ext (l₁ ++ ph :: l₂) l₁.length).2.1,
         (stepTasks enabled p ext (l₁ ++ ph :: l₂) l₁.length).2.2) from rfl]
    rw [ih p ph l₂]

/-- Stepping a slot beyond the task list changes nothing. -/
theorem stepTasks_oob (enabled : List ChainCfg) (ext : ExtEvent) :
    ∀ (tasks : List TaskPhase) (p : List String) (i : Nat), tasks.length ≤ i →
      stepTasks enabled p ext tasks i = (p, tasks, Action.none) := by
  intro tasks
  induction tasks with
  | nil => intro p i _; cases i <;> rfl
  | cons a rest ih =>
    intro p i hi
    cases i with
    | zero => simp at hi
    | succ j =>
      rw [show stepTasks enabled p ext (a :: rest) (j + 1) =
          ((stepTasks enabled p ext rest j).1,
           a :: (stepTasks enabled p ext rest j).2.1,
           (stepTasks enabled p ext rest j).2.2) from rfl,
        ih p j (by simp at hi; omega)]

/-- The scheduler step at a decomposed slot, in terms of `stepPhase`. -/
theorem stepRelayer_decomp (enabled : List ChainCfg) (p : List String)
    (l₁ l₂ : List TaskPhase) (ph : TaskPhase) (ext : ExtEvent) :
    stepRelayer enabled { processing := p, tasks := l₁ ++ ph :: l₂ } l₁.length ext =
      ({ processing := (stepPhase enabled p ph ext).1,
         tasks := l₁ ++ (stepPhase enabled p ph ext).2.1 :: l₂ },
       (stepPhase enabled p ph ext).2.2) := by
  unfold stepRelayer
  dsimp only
  rw [stepTasks_decomp]

/-- Every atomic scheduler step preserves the in-flight invariant. -/
theorem stepRelayer_preserves (enabled : List ChainCfg) (s : RState) (i : Nat)
    (ext : ExtEvent) (hInv : Inv s) : Inv (stepRelayer enabled s i ext).1 := by
  obtain ⟨p, tasks⟩ := s
  by_cases hi : i < tasks.length
  · obtain ⟨l₁, ph, l₂, htasks, hlen⟩ :
        ∃ l₁ ph l₂, tasks = l₁ ++ ph :: l₂ ∧ l₁.length = i := by
      refine ⟨tasks.take i, tasks[i], tasks.drop (i + 1), ?_, ?_⟩
      · conv_lhs => rw [← List.take_append_drop i tasks]
        rw [List.drop_eq_getElem_cons hi]
      · rw [List.length_take]; omega
    subst htasks
    subst hlen
    rw [stepRelayer_decomp]
    exact stepPhase_preserves enabled p l₁ l₂ ph ext hInv
  · unfold stepRelayer
    rw [stepTasks_oob enabled ext tasks p i (Nat.le_of_not_lt hi)]
    exact hInv

/-- Tasks holding a ticket absent from the in-flight list are not counted. -/
theorem countP_phId_zero (id : String) :
    ∀ tasks : List TaskPhase, id ∉ inFlightIds tasks →
      tasks.countP (fun ph => phId ph == some id) = 0 := by
  intro tasks
  induction tasks with
  | nil => intro _; rfl
  | cons ph rest ih =>
    intro h
    rw [List.countP_cons]
    cases hph : phId ph with
    | none =>
      have hcons : inFlightIds (ph :: rest) = inFlightIds rest := by
        simp [inFlightIds, List.filterMap_cons, hph]
      rw [hcons] at h
      simp [hph, ih h]
    | some id' =>
      have hcons : inFlightIds (ph :: rest) = id' :: inFlightIds rest := by
        simp [inFlightIds, List.filterMap_cons, hph]
      rw [hcons, List.mem_cons, not_or] at h
      obtain ⟨hne, ht⟩ := h
      have hne' : id' ≠ id := fun he => hne he.symm
      simp [hph, ih ht, hne']

/-- A duplicate-free in-flight list holds a given ticket in at most one
task. -/
theorem countP_phId_le_one (id : String) :
    ∀ tasks : List TaskPhase, (inFlightIds tasks).Nodup →
      tasks.countP (fun ph => phId ph == some id) ≤ 1 := by
  intro tasks
  induction tasks with
  | nil => intro _; simp
  | cons ph rest ih =>
    intro hnd
    rw [List.countP_cons]
    cases hph : phId ph with
    | none =>
      have hcons : inFlightIds (ph :: rest) = inFlightIds rest := by
        simp [inFlightIds, List.filterMap_cons, hph]
      rw [hcons] at hnd
      have := ih hnd
      simp [hph]
      omega
    | some id' =>
      have hcons : inFlightIds (ph :: rest) = id' :: inFlightIds rest := by
        simp [inFlightIds, List.filterMap_cons, hph]
      rw [hcons, List.nodup_cons] at hnd
      obtain ⟨hni, hnd'⟩ := hnd
      by_cases hid : id' = id
      · subst hid
        have h0 := countP_phId_zero id' rest hni
        simp [hph, h0]
      · have := ih hnd'
        simp [hph, hid]
        omega

/-- C1: the ticket check-and-insert of `handleEvent` is one atomic step
(no `await` between the check and the insert), every step preserves the
in-flight invariant — under which at most one invocation per event
identity is in flight at any instant — and while a ticket for an identity
is present, the entry step of another invocation with that identity
returns at once with that identity marked skipped, touching neither the
ticket map nor the outside world (no proof request, no dispatch). -/
theorem handleEvent_at_most_one_in_flight :
    (∀ (enabled : List ChainCfg) (s : RState) (i : Nat) (ext : ExtEvent),
      Inv s → Inv (stepRelayer enabled s i ext).1) ∧
    (∀ s : RState, Inv s → ∀ id : String,
      s.tasks.countP (fun ph => phId ph == some id) ≤ 1) ∧
    (∀ (enabled : List ChainCfg) (p : List String) (l₁ l₂ : List TaskPhase)
      (ev : EventData) (ext : ExtEvent),
      p.contains (mkEventId ev) = true →
      stepRelayer enabled { processing := p, tasks := l₁ ++ .entry ev :: l₂ }
          l₁.length ext =
        ({ processing := p, tasks := l₁ ++ .finished (mkEventId ev) true :: l₂ },
         Action.none)) := by
  refine ⟨stepRelayer_preserves, fun s hInv id => ?_, fun enabled p l₁ l₂ ev ext hc => ?_⟩
  · exact countP_phId_le_one id s.tasks hInv.2.1
  · have hm : mkEventId ev ∈ p := by simpa using hc
    have key : stepPhase enabled p (.entry ev) ext =
        (p, .finished (mkEventId ev) true, Action.none) := by
      cases ext <;> simp [stepPhase, hm]
    rw [stepRelayer_decomp, key]

/-- Witness for C1: with a ticket for `evW` in flight, the entry step of a
second invocation with the same identity only marks it skipped; the
invariant holds before and after. -/
theorem handleEvent_at_most_one_in_flight_witness :
    stepRelayer [] { processing := ["1-t"], tasks := [TaskPhase.awaitingProof "1-t" evW, TaskPhase.entry evW] } 1 ExtEvent.proofReady =
      ({ processing := ["1-t"], tasks := [TaskPhase.awaitingProof "1-t" evW, TaskPhase.finished "1-t" true] }, Action.none) ∧
    Inv ({ processing := ["1-t"], tasks := [TaskPhase.awaitingProof "1-t" evW, TaskPhase.entry evW] } : RState) ∧
    Inv (stepRelayer [] { processing := ["1-t"], tasks := [TaskPhase.awaitingProof "1-t" evW, TaskPhase.entry evW] } 1 ExtEvent.proofReady).1 ∧
    ({ processing := ["1-t"], tasks := [TaskPhase.awaitingProof "1-t" evW, TaskPhase.entry evW] } : RState).tasks.countP (fun ph => phId ph == some "1-t") ≤ 1 := by
  have hInv : Inv ({ processing := ["1-t"], tasks := [TaskPhase.awaitingProof "1-t" evW, TaskPhase.entry evW] } : RState) := by decide
  refine ⟨?_, hInv, handleEvent_at_most_one_in_flight.1 [] _ 1 ExtEvent.proofReady hInv,
    handleEvent_at_most_one_in_flight.2.1 _ hInv "1-t"⟩
  have h := handleEvent_at_most_one_in_flight.2.2 []
    ["1-t"] [TaskPhase.awaitingProof "1-t" evW] [] evW ExtEvent.proofReady (by decide)
  exact h.trans (by decide)

/-- C2: whichever way an in-flight `handleEvent` invocation completes —
the proof acquisition fails, or the fan-out settles (with any mix of
per-target outcomes) — the completing step removes its ticket from the
in-flight map; and an entry step for an identity with no ticket present
proceeds as a brand-new attempt, inserting the ticket and requesting a
proof. -/
theorem handleEvent_ticket_release :
    (∀ (enabled : List ChainCfg) (p : List String) (l₁ l₂ : List TaskPhase)
      (id : String) (ev : EventData),
      Inv { processing := p, tasks := l₁ ++ .awaitingProof id ev :: l₂ } →
      stepRelayer enabled { processing := p, tasks := l₁ ++ .awaitingProof id ev :: l₂ }
          l₁.length .proofFailed =
        ({ processing := p.erase id, tasks := l₁ ++ .finished id false :: l₂ },
         Action.none) ∧
      id ∉ p.erase id) ∧
    (∀ (enabled : List ChainCfg) (p : List String) (l₁ l₂ : List TaskPhase)
      (id : String) (targets : List Nat) (ext : ExtEvent),
      Inv { processing := p, tasks := l₁ ++ .awaitingDispatch id targets :: l₂ } →
      stepRelayer enabled
          { processing := p, tasks := l₁ ++ .awaitingDispatch id targets :: l₂ }
          l₁.length ext =
        ({ processing := p.erase id, tasks := l₁ ++ .finished id false :: l₂ },
         Action.none) ∧
      id ∉ p.erase id) ∧
    (∀ (enabled : List ChainCfg) (p : List String) (l₁ l₂ : List TaskPhase)
      (ev : EventData) (ext : ExtEvent),
      p.contains (mkEventId ev) = false →
      stepRelayer enabled { processing := p, tasks := l₁ ++ .entry ev :: l₂ }
          l₁.length ext =
        ({ processing := mkEventId ev :: p,
           tasks := l₁ ++ .awaitingProof (mkEventId ev) ev :: l₂ },
         Action.proofRequest (mkEventId ev))) := by
  refine ⟨fun enabled p l₁ l₂ id ev hInv => ⟨?_, ?_⟩,
    fun enabled p l₁ l₂ id targets ext hInv => ⟨?_, ?_⟩,
    fun enabled p l₁ l₂ ev ext hc => ?_⟩
  · rw [stepRelayer_decomp]
    rfl
  · intro hmem
    obtain ⟨hne, _⟩ := ((Inv_def p _).mp hInv).1.mem_erase_iff.mp hmem
    exact hne rfl
  · rw [stepRelayer_decomp]
    cases ext <;> rfl
  · intro hmem
    obtain ⟨hne, _⟩ := ((Inv_def p _).mp hInv).1.mem_erase_iff.mp hmem
    exact hne rfl
  · have hm : mkEventId ev ∉ p := by simpa using hc
    have key : stepPhase enabled p (.entry ev) ext =
        (mkEventId ev :: p, .awaitingProof (mkEventId ev) ev,
         .proofRequest (mkEventId ev)) := by
      cases ext <;> simp [stepPhase, hm]
    rw [stepRelayer_decomp, key]

/-- Witness for C2: a failing proof acquisition releases the concrete
ticket, after which the same identity is accepted as a new attempt. -/
theorem handleEvent_ticket_release_witness :
    stepRelayer [] { processing := ["1-t"], tasks := [TaskPhase.awaitingProof "1-t" evW] } 0 ExtEvent.proofFailed =
      ({ processing := [], tasks := [TaskPhase.finished "1-t" false] }, Action.none) ∧
    stepRelayer [] { processing := [], tasks := [TaskPhase.entry evW] } 0 ExtEvent.proofReady =
      ({ processing := ["1-t"], tasks := [TaskPhase.awaitingProof "1-t" evW] }, Action.proofRequest "1-t") := by
  constructor
  · have h := (handleEvent_ticket_release.1 [] ["1-t"] [] [] "1-t" evW (by decide)).1
    exact h.trans (by decide)
  · have h := handleEvent_ticket_release.2.2 [] [] [] [] evW ExtEvent.proofReady (by decide)
    exact h.trans (by decide)

end InvoiceRelayer
